import Mathlib

/-!
# Verification of the physics-sims utility scripts

A shallow embedding of the two command-line tools of the repository:

* `Solar-System/concat.py` — a bundler that concatenates a list of files
  into one output file, with a `# ===== <path> =====` header per section.
* `serve.py` / `serve_solar.py` — a local static-file development server
  with cache-disabling headers, ephemeral-port resolution and an optional
  delayed browser-open, plus a thin launcher that forwards to it.

Filesystem reads, the listening socket and the OS port assignment are
modelled as explicit parameters; everything else is translated directly
from the Python source.
-/

namespace PhysicsSims

/-! ## Path model (`pathlib`)

`concat.py` turns each input string into `Path(f)` and renders headers via
`PurePosixPath(p)`.  A parsed path is a triple (drive, root, parts): on a
POSIX host the drive is always empty and the root is `""`, `"/"` or `"//"`
(`pathlib` keeps a double slash as a distinct root, three or more collapse
to `"/"`); on a Windows host a leading `<letter>:` is the drive and both
separators split components.  Empty and `"."` components are dropped, as
`pathlib` does.  UNC shares are not modelled (the repository never forms
one). -/

structure PPath where
  drive : String
  root : String
  parts : List String
deriving DecidableEq, Repr

/-- Split a character list at every occurrence of the separator, keeping
empty groups (so `"a//b"` splits as `["a", "", "b"]`). -/
def splitSep (sep : Char) : List Char → List (List Char)
  | [] => [[]]
  | c :: t =>
      if c = sep then [] :: splitSep sep t
      else
        match splitSep sep t with
        | [] => [[c]]
        | g :: gs => (c :: g) :: gs

/-- Components of a path: split on the separator, then drop the empty and
`"."` entries, as `pathlib`'s parser does. -/
def pathComponents (sep : Char) (cs : List Char) : List String :=
  ((splitSep sep cs).map String.mk).filter (fun c => c ≠ "" && c ≠ ".")

/-- `Path(s)` on a POSIX host.  A leading run of exactly two slashes is the
root `"//"`; any other leading slash run is the root `"/"`. -/
def parsePosix (s : String) : PPath :=
  let root :=
    match s.toList with
    | '/' :: '/' :: '/' :: _ => "/"
    | '/' :: '/' :: _ => "//"
    | '/' :: _ => "/"
    | _ => ""
  { drive := "", root := root, parts := pathComponents '/' s.toList }

/-- `Path(s)` on a Windows host: `/` and `\` both separate, a leading
`<char>:` (the char not itself a separator) is the drive. -/
def parseWindows (s : String) : PPath :=
  let t := s.toList.map (fun c => if c = '/' then '\\' else c)
  let hasDrive :=
    match t with
    | c₁ :: c₂ :: _ => c₂ = ':' && c₁ ≠ '\\'
    | _ => false
  let drive := if hasDrive then String.mk (t.take 2) else ""
  let rest := if hasDrive then t.drop 2 else t
  let root := match rest with | '\\' :: _ => "/" | _ => ""
  { drive := drive, root := root, parts := pathComponents '\\' rest }

/-- The host platform's path flavour. -/
inductive Flavour where
  | posix
  | windows
deriving DecidableEq, Repr

/-- `Path(s)` on the given host. -/
def parsePath : Flavour → String → PPath
  | .posix, s => parsePosix s
  | .windows, s => parseWindows s

/-- Join strings with a separator between consecutive elements
(`sep.join(parts)`). -/
def joinSep (sep : String) : List String → String
  | [] => ""
  | [s] => s
  | s :: t => s ++ sep ++ joinSep sep t

/-- `str(PurePosixPath(p))`: drive and root, then the parts joined with
forward slashes; the empty relative path renders as `"."`. -/
def posixRender (p : PPath) : String :=
  if p.drive = "" && p.root = "" && p.parts = [] then "."
  else p.drive ++ p.root ++ joinSep "/" p.parts

/-! ## The bundler (`Solar-System/concat.py`)

The filesystem is a map `PPath → Option String`: `some c` means the path
is an existing regular file whose text decodes to `c` under the chosen
encoding, `none` means `p.exists()` is false.  (An existing but unreadable
or undecodable file aborts the run with a propagated exception; no claim
concerns that case, so the model leaves it out.)  The run is recorded as a
trace of events so that the order of effects — output opened for writing
before any input path is examined — is visible. -/

/-- The hard-coded project file list of `concat.py`, before the
module-level `list(dict.fromkeys(FILES))` rebinding. -/
def rawFILES : List String :=
  [ "C:\\Users\\Alif\\Documents\\GitHub\\solar-system\\index.html"
  , "C:\\Users\\Alif\\Documents\\GitHub\\solar-system\\js\\utils.js"
  , "C:\\Users\\Alif\\Documents\\GitHub\\solar-system\\js\\ui.js"
  , "C:\\Users\\Alif\\Documents\\GitHub\\solar-system\\js\\starfield.js"
  , "C:\\Users\\Alif\\Documents\\GitHub\\solar-system\\js\\sceneSetup.js"
  , "C:\\Users\\Alif\\Documents\\GitHub\\solar-system\\js\\main.js"
  , "C:\\Users\\Alif\\Documents\\GitHub\\solar-system\\js\\kepler.js"
  , "C:\\Users\\Alif\\Documents\\GitHub\\solar-system\\js\\controls.js"
  , "C:\\Users\\Alif\\Documents\\GitHub\\solar-system\\js\\celestialBodies.js"
  , "C:\\Users\\Alif\\Documents\\GitHub\\solar-system\\js\\constants.js"
  , "C:\\Users\\Alif\\Documents\\GitHub\\solar-system\\js\\animation.js"
  , "C:\\Users\\Alif\\Documents\\GitHub\\solar-system\\solarsystem_data.json" ]

/-- `list(dict.fromkeys(l))`: insert each element in order, skipping one
already present, so the first occurrence of each element survives in its
original position. -/
def dedupKeepFirst (l : List String) : List String :=
  l.foldl (fun acc x => if x ∈ acc then acc else acc ++ [x]) []

/-- The module constant `FILES` after `FILES = list(dict.fromkeys(FILES))`. -/
def FILES : List String := dedupKeepFirst rawFILES

/-- `HEADER.format(path=p)` with `HEADER = "# ===== {path} =====\n"`. -/
def headerLine (p : PPath) : String :=
  "# ===== " ++ posixRender p ++ " =====\n"

/-- Default output path string `OUTPUT`. -/
def OUTPUT : String := "solar_system_bundle.txt"

/-- One observable step of a bundler run. -/
inductive Ev where
  | openOut
  | warn (f : String)
  | write (s : String)
  | printSummary (ok skipped : Nat)
deriving DecidableEq, Repr

/-- Accumulated state of the `for f in files` loop in `bundle`. -/
structure BState where
  events : List Ev
  ok : Nat
  skipped : Nat
deriving DecidableEq, Repr

/-- The body of `bundle`'s loop for one path `f`: if `Path(f)` does not
exist, warn and count it skipped; otherwise write the header, the file's
text and a blank-line separator, and count it written. -/
def bundleStep (flav : Flavour) (fs : PPath → Option String)
    (acc : BState) (f : String) : BState :=
  let p := parsePath flav f
  match fs p with
  | none =>
      { acc with events := acc.events ++ [.warn f], skipped := acc.skipped + 1 }
  | some c =>
      { acc with
        events := acc.events ++ [.write (headerLine p), .write c, .write "\n\n"]
        ok := acc.ok + 1 }

/-- The list `bundle` actually iterates over: the caller's list when one is
given, else the module-level (deduplicated) `FILES`. -/
def processedList (files : Option (List String)) : List String :=
  match files with
  | some l => l
  | none => FILES

/-- Result of a `bundle` run: its event trace and the returned
`Path(output)`. -/
structure BundleRun where
  events : List Ev
  ok : Nat
  skipped : Nat
  returned : PPath
deriving DecidableEq, Repr

/-- `bundle(files, output)`: open (create or truncate) the output file,
loop over the processed list, print the summary and return `Path(output)`. -/
def bundle (flav : Flavour) (fs : PPath → Option String)
    (files : Option (List String)) (output : String) : BundleRun :=
  let s := (processedList files).foldl (bundleStep flav fs)
    { events := [.openOut], ok := 0, skipped := 0 }
  { events := s.events ++ [.printSummary s.ok s.skipped]
    ok := s.ok, skipped := s.skipped
    returned := parsePath flav output }

/-- The bytes that reach the output file: the concatenation of the trace's
`write` payloads (opening with mode `"w"` first truncates the file). -/
def writtenOf : List Ev → String
  | [] => ""
  | .write s :: es => s ++ writtenOf es
  | _ :: es => writtenOf es

/-- The section a single input path contributes to the output file. -/
def sectionOf (flav : Flavour) (fs : PPath → Option String) (f : String) : String :=
  match fs (parsePath flav f) with
  | none => ""
  | some c => headerLine (parsePath flav f) ++ c ++ "\n\n"

/-! ## The dev server (`serve.py`) and its launcher (`serve_solar.py`)

The OS's choice of ephemeral port for a `bind((host, 0))` probe enters as
the parameter `osPort`; everything else `run_server` computes before its
serve loop is pure and modelled directly. -/

/-- `find_free_port(host, port)`: a nonzero configured port is returned
unchanged; for port 0 a probe socket is bound to `(host, 0)` and the port
the OS assigned to it (`osPort` here) is read back and returned, the probe
socket being closed on the way out. -/
def find_free_port (osPort : Nat) (host : String) (port : Nat) : Nat :=
  let _ := host
  if port ≠ 0 then port else osPort

/-- `lstrip("/")`: remove every leading `/` character. -/
def lstripSlash (s : String) : String :=
  String.mk (s.toList.dropWhile (fun c => c = '/'))

/-- What `run_server` sets up before blocking in `serve_forever`: the
address the `ThreadingHTTPServer` is bound to, the printed base URL, and
the URL handed to the delayed `webbrowser.open` timer, if any. -/
structure ServerRun where
  boundHost : String
  boundPort : Nat
  baseUrl : String
  openUrl : Option String
deriving DecidableEq, Repr

/-- The setup phase of `run_server(host, port, open_path)`: resolve the
port via `find_free_port`, bind the server, form
`url = f"http://{host}:{port}/"`, and — only when `open_path` is truthy,
i.e. neither `None` nor the empty string — schedule a browser open of
`url + open_path.lstrip("/")`. -/
def run_server (osPort : Nat) (host : String) (port : Nat)
    (open_path : Option String) : ServerRun :=
  let port := find_free_port osPort host port
  let url := "http://" ++ host ++ ":" ++ toString port ++ "/"
  { boundHost := host
    boundPort := port
    baseUrl := url
    openUrl :=
      match open_path with
      | none => none
      | some p => if p = "" then none else some (url ++ lstripSlash p) }

/-- How control leaves the blocking `httpd.serve_forever()` call. -/
inductive LoopExit where
  | normal
  | interrupt
  | raised
deriving DecidableEq, Repr

/-- What remains after teardown: was the listening socket closed, and with
which exit code does the run end (`none` when an exception other than the
interrupt propagates past `run_server`). -/
structure Teardown where
  socketClosed : Bool
  exitCode : Option Nat
deriving DecidableEq, Repr

/-- The `try / except KeyboardInterrupt / finally` tail of `run_server`:
the `finally` block runs `httpd.server_close()` on every exit path; a
keyboard interrupt is swallowed (after printing a notice) so the function
falls through to `return 0`, as a normal return does; any other exception
propagates after the socket is closed. -/
def serveTeardown : LoopExit → Teardown
  | .normal => { socketClosed := true, exitCode := some 0 }
  | .interrupt => { socketClosed := true, exitCode := some 0 }
  | .raised => { socketClosed := true, exitCode := none }

/-- `DevHandler.end_headers`: append the three cache-disabling headers to
whatever headers the handler has already queued, then flush them all (the
base class's `end_headers`).  Every response a `SimpleHTTPRequestHandler`
emits finalises its header block through `end_headers`, so this runs for
every response of the dev server. -/
def DevHandler_end_headers (pending : List (String × String)) :
    List (String × String) :=
  pending ++
    [ ("Cache-Control", "no-store, no-cache, must-revalidate")
    , ("Pragma", "no-cache")
    , ("Expires", "0") ]

/-- `serve_solar.py`'s `main` after argument parsing: forward the parsed
host and port to `run_server` with the open path fixed to
`"Solar-System/index.html"`. -/
def serve_solar_main (osPort : Nat) (host : String) (port : Nat) : ServerRun :=
  run_server osPort host port (some "Solar-System/index.html")

/-- Defaults of `serve_solar.py`'s argument parser. -/
def serveSolarDefaults : String × Nat := ("127.0.0.1", 8000)

/-- Defaults of `serve.py`'s argument parser. -/
def serveDefaults : String × Nat := ("127.0.0.1", 8000)

/-! ## Derived notions used by the statements -/

/-- Concatenation of a list of strings (the output file's content is the
concatenation of its sections). -/
def concatSections : List String → String
  | [] => ""
  | s :: t => s ++ concatSections t

/-- The events one loop iteration appends to the trace. -/
def stepEvents (flav : Flavour) (fs : PPath → Option String) (f : String) : List Ev :=
  match fs (parsePath flav f) with
  | none => [.warn f]
  | some c => [.write (headerLine (parsePath flav f)), .write c, .write "\n\n"]

/-- The whole trace the loop appends for a list of input paths. -/
def traceOf (flav : Flavour) (fs : PPath → Option String) : List String → List Ev
  | [] => []
  | f :: t => stepEvents flav fs f ++ traceOf flav fs t

/-- How many paths of the list exist on the given filesystem. -/
def countOk (flav : Flavour) (fs : PPath → Option String) : List String → Nat
  | [] => 0
  | f :: t => (if (fs (parsePath flav f)).isSome then 1 else 0) + countOk flav fs t

/-- How many paths of the list are missing on the given filesystem. -/
def countMissing (flav : Flavour) (fs : PPath → Option String) : List String → Nat
  | [] => 0
  | f :: t => (if (fs (parsePath flav f)).isSome then 0 else 1) + countMissing flav fs t

/-- Order-stable first-occurrence dedup, written as the specification
describes it: walk the list, keep each element at its first occurrence,
drop a later duplicate (`seen` records the elements already emitted). -/
def specStableDedup (seen : List String) : List String → List String
  | [] => []
  | x :: t =>
      if x ∈ seen then specStableDedup seen t
      else x :: specStableDedup (x :: seen) t

/-- A one-file filesystem: the POSIX path `a` holds the text `x`. -/
def fsA : PPath → Option String :=
  fun p => if p = parsePosix "a" then some "x" else none

/-- A filesystem agreeing with `fsA` on the path `a` but nowhere else. -/
def fsOther : PPath → Option String :=
  fun p => if p = parsePosix "a" then some "x" else some "y"

/-- A one-file Windows filesystem: `C:\a\b.txt` holds the text `hi`. -/
def fsWin : PPath → Option String :=
  fun p => if p = parseWindows "C:\\a\\b.txt" then some "hi" else none

/-- The empty filesystem: every path is missing. -/
def fsEmpty : PPath → Option String := fun _ => none

/-! ## Helper lemmas -/

theorem foldl_bundleStep (flav : Flavour) (fs : PPath → Option String)
    (l : List String) : ∀ s : BState,
    l.foldl (bundleStep flav fs) s =
      { events := s.events ++ traceOf flav fs l
        ok := s.ok + countOk flav fs l
        skipped := s.skipped + countMissing flav fs l } := by
  induction l with
  | nil => intro s; simp [traceOf, countOk, countMissing]
  | cons f t ih =>
    intro s
    rw [List.foldl_cons, ih]
    cases h : fs (parsePath flav f) <;>
      simp [bundleStep, h, traceOf, stepEvents, countOk, countMissing,
        List.append_assoc] <;> omega

theorem countOk_add_countMissing (flav : Flavour) (fs : PPath → Option String)
    (l : List String) : countOk flav fs l + countMissing flav fs l = l.length := by
  induction l with
  | nil => rfl
  | cons f t ih =>
    cases h : fs (parsePath flav f) <;> simp [countOk, countMissing, h] <;> omega

theorem writtenOf_append (a b : List Ev) :
    writtenOf (a ++ b) = writtenOf a ++ writtenOf b := by
  induction a with
  | nil => simp [writtenOf, String.empty_append]
  | cons e t ih =>
    cases e <;> simp [writtenOf, ih, String.append_assoc]

theorem writtenOf_traceOf (flav : Flavour) (fs : PPath → Option String)
    (l : List String) :
    writtenOf (traceOf flav fs l) = concatSections (l.map (sectionOf flav fs)) := by
  induction l with
  | nil => rfl
  | cons f t ih =>
    rw [traceOf, writtenOf_append, ih]
    cases h : fs (parsePath flav f) <;>
      simp [stepEvents, sectionOf, h, writtenOf, concatSections,
        String.append_empty, String.empty_append, String.append_assoc]

theorem dedupKeepFirst_go (l : List String) : ∀ acc seen : List String,
    (∀ y, y ∈ acc ↔ y ∈ seen) →
    l.foldl (fun acc x => if x ∈ acc then acc else acc ++ [x]) acc =
      acc ++ specStableDedup seen l := by
  induction l with
  | nil => intro acc seen _; simp [specStableDedup]
  | cons x t ih =>
    intro acc seen hmem
    rw [List.foldl_cons]
    by_cases hx : x ∈ acc
    · rw [if_pos hx, specStableDedup, if_pos ((hmem x).mp hx)]
      exact ih acc seen hmem
    · rw [if_neg hx, specStableDedup, if_neg (fun h => hx ((hmem x).mpr h))]
      rw [ih (acc ++ [x]) (x :: seen) (by intro y; simp [hmem y, or_comm])]
      simp [List.append_assoc]

theorem dedupKeepFirst_eq_spec (l : List String) :
    dedupKeepFirst l = specStableDedup [] l := by
  simpa using dedupKeepFirst_go l [] [] (by simp)

theorem specStableDedup_sublist (l : List String) : ∀ seen : List String,
    (specStableDedup seen l).Sublist l := by
  induction l with
  | nil => intro seen; simp [specStableDedup]
  | cons x t ih =>
    intro seen
    rw [specStableDedup]
    by_cases hx : x ∈ seen
    · rw [if_pos hx]; exact (ih seen).cons x
    · rw [if_neg hx]; exact (ih (x :: seen)).cons₂ x

theorem specStableDedup_not_mem_seen (l : List String) :
    ∀ seen y, y ∈ specStableDedup seen l → y ∉ seen := by
  induction l with
  | nil => intro seen y h; simp [specStableDedup] at h
  | cons x t ih =>
    intro seen y h
    rw [specStableDedup] at h
    by_cases hx : x ∈ seen
    · rw [if_pos hx] at h; exact ih seen y h
    · rw [if_neg hx] at h
      rcases List.mem_cons.mp h with rfl | h
      · exact hx
      · intro hy
        exact ih (x :: seen) y h (List.mem_cons_of_mem x hy)

theorem specStableDedup_nodup (l : List String) :
    ∀ seen : List String, (specStableDedup seen l).Nodup := by
  induction l with
  | nil => intro seen; simp [specStableDedup]
  | cons x t ih =>
    intro seen
    rw [specStableDedup]
    by_cases hx : x ∈ seen
    · rw [if_pos hx]; exact ih seen
    · rw [if_neg hx]
      refine List.nodup_cons.mpr ⟨?_, ih (x :: seen)⟩
      intro hmem
      exact specStableDedup_not_mem_seen t (x :: seen) x hmem (List.mem_cons_self x seen)

theorem bundleStep_foldl_congr (flav : Flavour) (fs₁ fs₂ : PPath → Option String)
    (l : List String)
    (h : ∀ f ∈ l, fs₁ (parsePath flav f) = fs₂ (parsePath flav f)) :
    ∀ s : BState, l.foldl (bundleStep flav fs₁) s = l.foldl (bundleStep flav fs₂) s := by
  induction l with
  | nil => intro s; rfl
  | cons f t ih =>
    intro s
    rw [List.foldl_cons, List.foldl_cons]
    rw [show bundleStep flav fs₁ s f = bundleStep flav fs₂ s f by
      simp only [bundleStep, h f (List.mem_cons_self f t)]]
    exact ih (fun g hg => h g (List.mem_cons_of_mem f hg)) _

theorem countOk_all_missing (flav : Flavour) (fs : PPath → Option String)
    (l : List String) (h : ∀ f ∈ l, fs (parsePath flav f) = none) :
    countOk flav fs l = 0 := by
  induction l with
  | nil => rfl
  | cons f t ih =>
    rw [countOk, h f (List.mem_cons_self f t)]
    simpa using ih (fun g hg => h g (List.mem_cons_of_mem f hg))

theorem writtenOf_all_missing (flav : Flavour) (fs : PPath → Option String)
    (l : List String) (h : ∀ f ∈ l, fs (parsePath flav f) = none) :
    writtenOf (traceOf flav fs l) = "" := by
  induction l with
  | nil => rfl
  | cons f t ih =>
    rw [traceOf, writtenOf_append, stepEvents, h f (List.mem_cons_self f t)]
    rw [ih (fun g hg => h g (List.mem_cons_of_mem f hg))]
    rfl

/-! ## The claims -/

/-- Claim C1, counterexample: `bundle` does not deduplicate a
caller-supplied list.  On a filesystem where `a` exists with content `x`,
bundling `["a", "a"]` differs from bundling its deduplication `["a"]`
(two sections are written instead of one), refuting "for every input list
... duplicate paths are removed before processing". -/
theorem bundle_keeps_duplicates_of_given_list :
    bundle .posix fsA (some ["a", "a"]) OUTPUT ≠
      bundle .posix fsA (some (dedupKeepFirst ["a", "a"])) OUTPUT := by
  decide

/-- Claim C1, amended: only the built-in default list is deduplicated —
the module-level `FILES` is rebound to its order-stable first-occurrence
dedup and is what a call without a list processes, while a caller-supplied
list is processed exactly as given.  The dedup really is the order-stable
first-occurrence one: it agrees with the specification's walk, is a
sublist of its input (order preserved) and has no duplicates. -/
theorem dedup_only_for_default_list :
    FILES = specStableDedup [] rawFILES ∧
    processedList none = FILES ∧
    (∀ l, processedList (some l) = l) ∧
    (∀ l, dedupKeepFirst l = specStableDedup [] l) ∧
    (∀ l, (dedupKeepFirst l).Sublist l) ∧
    (∀ l, (dedupKeepFirst l).Nodup) := by
  refine ⟨dedupKeepFirst_eq_spec rawFILES, rfl, fun l => rfl,
    dedupKeepFirst_eq_spec, fun l => ?_, fun l => ?_⟩
  · rw [dedupKeepFirst_eq_spec]; exact specStableDedup_sublist l []
  · rw [dedupKeepFirst_eq_spec]; exact specStableDedup_nodup l []

/-- Claim C2, counterexample: for the caller-supplied list `["a", "a"]`
(with `a` existing) the written-section count plus the skipped count is 2,
the length of the list as given, not 1, the length of its deduplication. -/
theorem bundle_counts_exceed_dedup_length :
    ¬((bundle .posix fsA (some ["a", "a"]) OUTPUT).ok +
        (bundle .posix fsA (some ["a", "a"]) OUTPUT).skipped =
      (dedupKeepFirst ["a", "a"]).length) := by
  decide

/-- Claim C2, amended: the number of written sections plus the number of
skipped files equals the length of the list actually processed — the
caller's list as given (duplicates counted), or, when no list is supplied,
the deduplicated built-in list, so that in the default case the sum does
equal the deduplicated list's length. -/
theorem bundle_counts_sum_processed_length :
    (∀ flav fs files output, (bundle flav fs files output).ok +
        (bundle flav fs files output).skipped = (processedList files).length) ∧
    (∀ flav fs output, (bundle flav fs none output).ok +
        (bundle flav fs none output).skipped =
      (specStableDedup [] rawFILES).length) := by
  have h : ∀ flav fs files output, (bundle flav fs files output).ok +
      (bundle flav fs files output).skipped = (processedList files).length := by
    intro flav fs files output
    simp only [bundle, foldl_bundleStep, Nat.zero_add]
    exact countOk_add_countMissing flav fs (processedList files)
  refine ⟨h, fun flav fs output => ?_⟩
  rw [h flav fs none output]
  show FILES.length = _
  rw [show FILES = specStableDedup [] rawFILES from dedupKeepFirst_eq_spec rawFILES]

/-- Claim C3: `DevHandler.end_headers` appends exactly the three
cache-disabling headers, with their literal values, to the headers already
queued for the response — so every response of the dev server carries
`Cache-Control: no-store, no-cache, must-revalidate`, `Pragma: no-cache`
and `Expires: 0` in addition to the standard static-file headers. -/
theorem end_headers_no_cache (pending : List (String × String)) :
    DevHandler_end_headers pending =
      pending ++
        [ ("Cache-Control", "no-store, no-cache, must-revalidate")
        , ("Pragma", "no-cache")
        , ("Expires", "0") ] ∧
    ("Cache-Control", "no-store, no-cache, must-revalidate")
      ∈ DevHandler_end_headers pending ∧
    ("Pragma", "no-cache") ∈ DevHandler_end_headers pending ∧
    ("Expires", "0") ∈ DevHandler_end_headers pending := by
  refine ⟨rfl, ?_, ?_, ?_⟩ <;> simp [DevHandler_end_headers]

/-- Claim C4: port resolution.  A configured port of 0 makes the server
bind the ephemeral port the OS assigned to the probe socket — a concrete
port greater than 0 — while a nonzero configured port is used unchanged. -/
theorem port_resolution (osPort : Nat) (host : String) (port : Nat)
    (open_path : Option String) (hos : 0 < osPort) :
    (port = 0 → (run_server osPort host port open_path).boundPort = osPort) ∧
    (port ≠ 0 → (run_server osPort host port open_path).boundPort = port) ∧
    0 < (run_server osPort host port open_path).boundPort := by
  simp only [run_server, find_free_port]
  by_cases h : port = 0 <;> simp [h] <;> omega

/-- Witness for C4 at a concrete input: with the OS assigning 54321 and a
configured port of 0, the server binds port 54321. -/
theorem port_resolution_witness :
    (run_server 54321 "127.0.0.1" 0 none).boundPort = 54321 :=
  (port_resolution 54321 "127.0.0.1" 0 none (by decide)).1 rfl

/-- Claim C5: the output file is exactly the concatenation of one section
per processed path, and the section of every included file starts with the
header line `# ===== <path> =====` where `<path>` is the forward-slash
(`PurePosixPath`) rendering of the parsed source path — on either host
flavour. -/
theorem bundle_header_format (flav : Flavour) (fs : PPath → Option String)
    (files : Option (List String)) (output : String) :
    writtenOf (bundle flav fs files output).events =
      concatSections ((processedList files).map (sectionOf flav fs)) ∧
    (∀ f c, fs (parsePath flav f) = some c →
      sectionOf flav fs f =
        "# ===== " ++ posixRender (parsePath flav f) ++ " =====\n" ++ c ++ "\n\n") := by
  constructor
  · simp only [bundle, foldl_bundleStep]
    rw [writtenOf_append, writtenOf_append, writtenOf_traceOf]
    simp [writtenOf, String.empty_append, String.append_empty]
  · intro f c h
    simp [sectionOf, h, headerLine, String.append_assoc]

/-- Witness for C5 at a concrete input on a Windows host: bundling the
file `C:\a\b.txt` (content `hi`) produces the section
`# ===== C:/a/b.txt =====` + content + blank line — backslash separators
rendered with forward slashes. -/
theorem bundle_header_format_witness :
    sectionOf .windows fsWin "C:\\a\\b.txt" =
      "# ===== C:/a/b.txt =====\nhi\n\n" := by
  rw [(bundle_header_format .windows fsWin (some ["C:\\a\\b.txt"]) OUTPUT).2
    "C:\\a\\b.txt" "hi" (by decide)]
  decide

/-- Claim C6: the bundler's result depends only on the processed list, the
output path and the contents of the listed files — two runs over
filesystems agreeing on every listed path produce identical traces, counts
and output bytes, so rerunning with unchanged inputs is byte-identical. -/
theorem bundle_content_congruence (flav : Flavour) (files : Option (List String))
    (output : String) (fs₁ fs₂ : PPath → Option String)
    (h : ∀ f ∈ processedList files, fs₁ (parsePath flav f) = fs₂ (parsePath flav f)) :
    bundle flav fs₁ files output = bundle flav fs₂ files output := by
  simp only [bundle]
  rw [bundleStep_foldl_congr flav fs₁ fs₂ (processedList files) h]

/-- Witness for C6 at a concrete input: two filesystems that agree on the
single listed path `a` give byte-identical bundle runs. -/
theorem bundle_content_congruence_witness :
    bundle .posix fsA (some ["a"]) OUTPUT =
      bundle .posix fsOther (some ["a"]) OUTPUT :=
  bundle_content_congruence .posix (some ["a"]) OUTPUT fsA fsOther
    (by intro f hf; simp [processedList] at hf; subst hf; rfl)

/-- Claim C7: the launcher is argument forwarding and nothing else — for
every host and port (and OS port draw) `serve_solar.py`'s `main` behaves
exactly as `run_server` with the open path pinned to
`Solar-System/index.html`, and its host/port defaults coincide with the
dev server's. -/
theorem serve_solar_is_run_server :
    (∀ osPort host port, serve_solar_main osPort host port =
      run_server osPort host port (some "Solar-System/index.html")) ∧
    serveSolarDefaults = serveDefaults :=
  ⟨fun _ _ _ => rfl, rfl⟩

/-- Claim C8: the listening socket is closed on every exit path of the
serve loop, and an operator interrupt ends the run with the socket closed
and exit code 0. -/
theorem interrupt_is_clean_shutdown :
    (∀ e : LoopExit, (serveTeardown e).socketClosed = true) ∧
    serveTeardown .interrupt = { socketClosed := true, exitCode := some 0 } := by
  exact ⟨fun e => by cases e <;> rfl, rfl⟩

/-- Claim C9, counterexample: the open paths `"/"` and `""` differ only in
leading slashes (they strip to the same string), yet `"/"` schedules a
browser open of the base URL while `""` — falsy in the `if open_path:`
guard — schedules none, so they do not produce the identical open URL. -/
theorem open_path_slash_counterexample :
    lstripSlash "/" = lstripSlash "" ∧
    (run_server 1 "h" 80 (some "/")).openUrl ≠
      (run_server 1 "h" 80 (some "")).openUrl := by
  exact ⟨by decide, by decide⟩

/-- Claim C9, amended: for every nonempty open path the scheduled URL is
the base URL concatenated with the path after stripping all leading
slashes, and two nonempty open paths differing only in leading slashes
produce the identical URL; an absent or empty open path schedules no
browser open at all. -/
theorem open_url_formula (osPort : Nat) (host : String) (port : Nat) :
    (∀ p : String, p ≠ "" →
      (run_server osPort host port (some p)).openUrl =
        some ((run_server osPort host port (some p)).baseUrl ++ lstripSlash p)) ∧
    (run_server osPort host port none).openUrl = none ∧
    (run_server osPort host port (some "")).openUrl = none ∧
    (∀ p₁ p₂ : String, p₁ ≠ "" → p₂ ≠ "" → lstripSlash p₁ = lstripSlash p₂ →
      (run_server osPort host port (some p₁)).openUrl =
        (run_server osPort host port (some p₂)).openUrl) := by
  refine ⟨fun p hp => ?_, rfl, rfl, fun p₁ p₂ h₁ h₂ hs => ?_⟩
  · simp [run_server, hp]
  · simp [run_server, h₁, h₂, hs]

/-- Witness for C9 (amended) at a concrete input: the open path `//x`
schedules `http://h:80/x`. -/
theorem open_url_formula_witness :
    (run_server 7 "h" 80 (some "//x")).openUrl = some "http://h:80/x" := by
  rw [(open_url_formula 7 "h" 80).1 "//x" (by decide)]
  decide

/-- Claim C10: the bundler opens (creates or truncates) the output file
before examining any input path, never fails on missing inputs, always
ends by printing the summary, and returns `Path(output)`; when every
listed path is missing — in particular for the empty list — the output
file is left empty and every path is counted skipped. -/
theorem bundle_always_writes_output (flav : Flavour) (fs : PPath → Option String)
    (files : Option (List String)) (output : String) :
    (bundle flav fs files output).events.head? = some .openOut ∧
    (bundle flav fs files output).events.getLast? =
      some (.printSummary (bundle flav fs files output).ok
        (bundle flav fs files output).skipped) ∧
    (bundle flav fs files output).returned = parsePath flav output ∧
    ((∀ f ∈ processedList files, fs (parsePath flav f) = none) →
      writtenOf (bundle flav fs files output).events = "" ∧
      (bundle flav fs files output).ok = 0 ∧
      (bundle flav fs files output).skipped = (processedList files).length) := by
  refine ⟨?_, ?_, rfl, fun h => ⟨?_, ?_, ?_⟩⟩
  · simp [bundle, foldl_bundleStep]
  · simp only [bundle, foldl_bundleStep]
    exact List.getLast?_concat _
  · simp only [bundle, foldl_bundleStep]
    rw [writtenOf_append, writtenOf_append, writtenOf_all_missing flav fs _ h]
    rfl
  · simp only [bundle, foldl_bundleStep, Nat.zero_add]
    exact countOk_all_missing flav fs _ h
  · simp only [bundle, foldl_bundleStep, Nat.zero_add]
    have := countOk_add_countMissing flav fs (processedList files)
    rw [countOk_all_missing flav fs _ h] at this
    simpa using this

/-- Witness for C10 at a concrete input: on the empty filesystem, bundling
the single missing path `missing.txt` writes an empty output file and
counts one skip. -/
theorem bundle_always_writes_output_witness :
    writtenOf (bundle .posix fsEmpty (some ["missing.txt"]) OUTPUT).events = "" ∧
    (bundle .posix fsEmpty (some ["missing.txt"]) OUTPUT).skipped =
      (processedList (some ["missing.txt"])).length := by
  have h := (bundle_always_writes_output .posix fsEmpty
    (some ["missing.txt"]) OUTPUT).2.2.2 (fun f _ => rfl)
  exact ⟨h.1, h.2.2⟩

end PhysicsSims
